import Mathlib

/-!
Verification of the Password_Creator repository.

The embedding models the canonical variant of the code:
`Policy/policy.py` (class `PasswordPolicy`, its `validate_rules`,
`to_dict`, `from_dict`) and `generator/generator.py`
(class `PasswordGenerator` and its methods).

Modelling conventions:
* a Python `str` is a `List Char` (`PyStr`);
* Python `int` is `Int`;
* `raise PolicyError(msg)` is `Except.error msg`;
* the process-wide random source (`random.randint`, `random.choice`,
  `random.shuffle`) is an explicit stream of natural numbers (`RNG`)
  threaded through every operation; each primitive consumes one stream
  value per elementary draw;
* leading underscores of Python method names are dropped
  (`_get_target_length` becomes `get_target_length`, and so on).
-/

namespace PwdCreator

/-- A Python string, modelled as its sequence of characters. -/
abbrev PyStr := List Char

/-- Explicit random source: a stream of natural numbers `f` with a
position `i`.  Models the process-wide `random` module state. -/
structure RNG where
  f : Nat → Nat
  i : Nat

/-- Draw the next raw value from the stream. -/
def RNG.next (g : RNG) : Nat × RNG :=
  (g.f g.i, ⟨g.f, g.i + 1⟩)

/-- Model of `random.randint(a, b)` (inclusive bounds); callers in the
source only invoke it with `a <= b`, and on that domain the result is
`a + (raw mod (b - a + 1))`, which lies in `[a, b]`. -/
def randint (a b : Int) (g : RNG) : Int × RNG :=
  (a + (g.next.1 : Int) % (b - a + 1), g.next.2)

/-- The `PasswordPolicy` data of `Policy/policy.py`: ten fields set by
`__init__`.  `allowed_specials` and `deny_substrings` are optional lists
of strings, `max_consecutive_same` an optional integer. -/
structure PasswordPolicy where
  length_min : Int
  length_max : Int
  require_upper : Bool
  require_lower : Bool
  require_digits : Bool
  require_specials : Bool
  allowed_specials : Option (List PyStr)
  deny_substrings : Option (List PyStr)
  max_consecutive_same : Option Int
  no_whitespace : Bool
deriving DecidableEq

/-- The six ASCII characters on which Python `str.isspace` is true. -/
def isSpaceChar (c : Char) : Bool :=
  c = ' ' || c = '\t' || c = '\n' || c = '\r' || c = '\x0b' || c = '\x0c'

/-- Model of Python `str.isspace()` (ASCII fragment): nonempty and all
characters whitespace. -/
def pyIsSpace (s : PyStr) : Bool :=
  !s.isEmpty && s.all isSpaceChar

/-- The required-category count `sum([require_upper, require_lower,
require_digits, require_specials])` used both by `validate_rules` and by
`_get_target_length`. -/
def requiredCount (p : PasswordPolicy) : Int :=
  (if p.require_upper then 1 else 0) + (if p.require_lower then 1 else 0)
    + (if p.require_digits then 1 else 0) + (if p.require_specials then 1 else 0)

/-- The `validate_rules` method of `Policy/policy.py`, with checks in
source order.  The `isinstance` checks hold by typing in the embedding.
Python truthiness `not self.allowed_specials` distinguishes `None`
(not a list) from the empty list, so the two raise different messages. -/
def validate_rules (p : PasswordPolicy) : Except String Unit :=
  if p.length_min ≤ 0 ∨ p.length_max ≤ 0 then
    .error "PolicyError: length_min and length_max must be > 0"
  else if p.length_min > p.length_max then
    .error "PolicyError: length_min must be <= length_max"
  else if p.require_specials ∧ p.allowed_specials = none then
    .error "allowed_specials must be a list or tuple of strings"
  else if p.require_specials ∧ p.allowed_specials.getD [] = [] then
    .error "allowed_specials must not be empty"
  else if p.require_specials ∧ ∃ s ∈ p.allowed_specials.getD [], s.length ≠ 1 then
    .error "allowed_specials must contain only single-character strings"
  else if ∃ s ∈ p.deny_substrings.getD [], s = [] then
    .error "deny_substrings must not contain empty strings"
  else if p.length_min > 1024 ∨ p.length_max > 1024 then
    .error "PolicyError: length_min or length_max value (must be <= 1024)"
  else if p.no_whitespace ∧ ∃ s ∈ p.allowed_specials.getD [], pyIsSpace s = true then
    .error "PolicyError: Special characters cannot have whitespaces"
  else if p.max_consecutive_same.getD 1 < 1 then
    .error "PolicyError: max_consecutive_same Must be >= 1"
  else if requiredCount p > p.length_max then
    .error "PolicyError: length_max must be >= required_count"
  else .ok ()

/-- The dictionary produced by `to_dict`: a record with the ten fixed
keys the source writes. -/
structure PolicyDict where
  length_min : Int
  length_max : Int
  require_upper : Bool
  require_lower : Bool
  require_digits : Bool
  require_specials : Bool
  allowed_specials : Option (List PyStr)
  deny_substrings : Option (List PyStr)
  max_consecutive_same : Option Int
  no_whitespace : Bool
deriving DecidableEq

/-- The `to_dict` method: field-by-field serialization. -/
def to_dict (p : PasswordPolicy) : PolicyDict :=
  { length_min := p.length_min
    length_max := p.length_max
    require_upper := p.require_upper
    require_lower := p.require_lower
    require_digits := p.require_digits
    require_specials := p.require_specials
    allowed_specials := p.allowed_specials
    deny_substrings := p.deny_substrings
    max_consecutive_same := p.max_consecutive_same
    no_whitespace := p.no_whitespace }

/-- The `from_dict` classmethod: reads every field and calls the
constructor, which runs `validate_rules` and may raise. -/
def from_dict (d : PolicyDict) : Except String PasswordPolicy :=
  let p : PasswordPolicy :=
    { length_min := d.length_min
      length_max := d.length_max
      require_upper := d.require_upper
      require_lower := d.require_lower
      require_digits := d.require_digits
      require_specials := d.require_specials
      allowed_specials := d.allowed_specials
      deny_substrings := d.deny_substrings
      max_consecutive_same := d.max_consecutive_same
      no_whitespace := d.no_whitespace }
  match validate_rules p with
  | .error e => .error e
  | .ok _ => .ok p

/-- The `_get_target_length` method of `PasswordGenerator`: re-checks
the length bounds, computes the required-category count and draws the
target uniformly from `[max(length_min, required_count), length_max]`.
(`length_max` is never `None` here since the policy constructor sets it
to an integer.) -/
def get_target_length (p : PasswordPolicy) (g : RNG) : Except String (Int × RNG) :=
  let min_val := p.length_min
  let max_val := p.length_max
  if min_val ≤ 0 then
    .error "length_min must be > 0"
  else if min_val > max_val then
    .error "length_min must be <= length_max"
  else
    let required_count := requiredCount p
    if required_count > max_val then
      .error "PolicyError: required categories exceed length_max — policy impossible to satisfy"
    else
      let effective_min := max min_val required_count
      .ok (randint effective_min max_val g)

/-- The `_add_upper` method: `chr(random.randint(65, 90))`. -/
def add_upper (g : RNG) : PyStr × RNG :=
  ([Char.ofNat (randint 65 90 g).1.toNat], (randint 65 90 g).2)

/-- The `_add_lower` method: `chr(random.randint(97, 122))`. -/
def add_lower (g : RNG) : PyStr × RNG :=
  ([Char.ofNat (randint 97 122 g).1.toNat], (randint 97 122 g).2)

/-- The `_add_digits` method: `str(random.randint(0, 9))`, the decimal
digit character. -/
def add_digits (g : RNG) : PyStr × RNG :=
  ([Char.ofNat (48 + (randint 0 9 g).1.toNat)], (randint 0 9 g).2)

/-- The `_add_specials` method: raises when `allowed_specials` is `None`
or empty (Python truthiness), otherwise `random.choice` over it. -/
def add_specials (p : PasswordPolicy) (g : RNG) : Except String (PyStr × RNG) :=
  match p.allowed_specials with
  | none => .error "PolicyError: No allowed specials defined in policy."
  | some l =>
    if l = [] then .error "PolicyError: No allowed specials defined in policy."
    else .ok (l.getD (g.next.1 % l.length) [], g.next.2)

/-- First seeding step of `generate`: `if self.policy.require_upper:
password_chars.append(self._add_upper())`. -/
def seedUpper (p : PasswordPolicy) (g : RNG) : List PyStr × RNG :=
  if p.require_upper then ([(add_upper g).1], (add_upper g).2) else ([], g)

/-- Second seeding step: append `_add_lower()` when `require_lower`. -/
def seedLower (p : PasswordPolicy) (r : List PyStr × RNG) : List PyStr × RNG :=
  if p.require_lower then (r.1 ++ [(add_lower r.2).1], (add_lower r.2).2) else r

/-- Third seeding step: append `_add_digits()` when `require_digits`. -/
def seedDigits (p : PasswordPolicy) (r : List PyStr × RNG) : List PyStr × RNG :=
  if p.require_digits then (r.1 ++ [(add_digits r.2).1], (add_digits r.2).2) else r

/-- The seeding phase of `generate`: append one character from each
required class in the fixed source order upper, lower, digit, special. -/
def seedRequired (p : PasswordPolicy) (g : RNG) : Except String (List PyStr × RNG) :=
  let r3 := seedDigits p (seedLower p (seedUpper p g))
  if p.require_specials then
    match add_specials p r3.2 with
    | .error e => .error e
    | .ok sg => .ok (r3.1 ++ [sg.1], sg.2)
  else .ok r3

/-- The fill loop of `generate`: while the list of drawn strings is
shorter than the target, pick one generator uniformly from
`[_add_upper, _add_lower, _add_digits]` (plus `_add_specials` when
`require_specials`) and append its output. -/
def fillLoop (p : PasswordPolicy) (target : Int) (chars : List PyStr) (g : RNG) :
    Except String (List PyStr × RNG) :=
  if h : (chars.length : Int) < target then
    let gens : Nat := if p.require_specials then 4 else 3
    match g.next.1 % gens with
    | 0 =>
      fillLoop p target (chars ++ [(add_upper g.next.2).1]) (add_upper g.next.2).2
    | 1 =>
      fillLoop p target (chars ++ [(add_lower g.next.2).1]) (add_lower g.next.2).2
    | 2 =>
      fillLoop p target (chars ++ [(add_digits g.next.2).1]) (add_digits g.next.2).2
    | _ + 3 =>
      match add_specials p g.next.2 with
      | .error e => .error e
      | .ok sg => fillLoop p target (chars ++ [sg.1]) sg.2
  else .ok (chars, g)
termination_by (target - chars.length).toNat
decreasing_by all_goals (simp only [List.length_append, List.length_cons, List.length_nil]; omega)

/-- Model of `random.shuffle` followed by `''.join` is split in two: the
permutation itself.  The library shuffle is modelled as repeatedly
drawing a uniform index among the remaining elements and moving that
element to the front; any uniform-permutation model supports the same
multiset-preservation reasoning. -/
def shuffleList : List PyStr → RNG → List PyStr × RNG
  | [], g => ([], g)
  | x :: xs, g =>
    let j := g.next.1 % (x :: xs).length
    ((x :: xs).getD j [] :: (shuffleList ((x :: xs).eraseIdx j) g.next.2).1,
      (shuffleList ((x :: xs).eraseIdx j) g.next.2).2)
termination_by l _ => l.length
decreasing_by
  have hm : g.next.1 % (x :: xs).length < (x :: xs).length :=
    Nat.mod_lt _ (by simp)
  simp only [List.length_eraseIdx]
  simp only [List.length_cons] at hm ⊢
  simp [hm]

/-- The `_shuffle` method: permute the accumulated strings and join. -/
def shuffle (chars : List PyStr) (g : RNG) : PyStr × RNG :=
  ((shuffleList chars g).1.flatten, (shuffleList chars g).2)

/-- The scanning loop of `check_max_consecutive`: state is the previous
character and the current run count. -/
def consecLoop (m : Int) : List Char → Char → Int → Bool
  | [], _, _ => true
  | c :: rest, prev, count =>
    if c = prev then
      if count + 1 > m then false
      else consecLoop m rest c (count + 1)
    else consecLoop m rest c 1

/-- The `check_max_consecutive` method: `True` when `max_count` is
`None`, otherwise a left-to-right scan counting runs of identical
adjacent characters. -/
def check_max_consecutive (password : PyStr) (max_count : Option Int) : Bool :=
  match max_count with
  | none => true
  | some m =>
    match password with
    | [] => true
    | c :: rest => consecLoop m rest c 1

/-- Model of Python string containment `sub in s`, first the anchored
match at the head. -/
def isPfx : PyStr → PyStr → Bool
  | [], _ => true
  | _ :: _, [] => false
  | a :: l₁, b :: l₂ => a = b && isPfx l₁ l₂

/-- Model of Python `sub in s`: an anchored match at some position. -/
def hasSeg (sub : PyStr) : PyStr → Bool
  | [] => isPfx sub []
  | b :: l => isPfx sub (b :: l) || hasSeg sub l

/-- The `_check_deny_substrings` method: `True` when the policy has no
deny list, otherwise no listed string occurs in the candidate. -/
def check_deny_substrings (p : PasswordPolicy) (password : PyStr) : Bool :=
  match p.deny_substrings with
  | none => true
  | some subs => subs.all fun s => !hasSeg s password

/-- One candidate construction inside `generate`: target length, seeded
required categories, fill loop, shuffle and join. -/
def buildCandidate (p : PasswordPolicy) (g : RNG) : Except String (PyStr × RNG) :=
  match get_target_length p g with
  | .error e => .error e
  | .ok (target, g1) =>
    match seedRequired p g1 with
    | .error e => .error e
    | .ok (chars, g2) =>
      match fillLoop p target chars g2 with
      | .error e => .error e
      | .ok (chars', g3) => .ok (shuffle chars' g3)

/-- The exhaustion message of `generate` (an f-string over the budget). -/
def exhaustMsg (max_attempts : Int) : String :=
  "unable to generate password after " ++ toString max_attempts
    ++ " attempts; policy too restrictive"

/-- The retry loop of `generate`, instrumented with a ghost count of the
candidates constructed by this call (the count is no part of the source
computation; both post-checks and the attempt counter follow the source).
`attempts` is the Python local of the same name. -/
def generateAux (p : PasswordPolicy) (max_attempts : Int) (attempts : Int) (g : RNG) :
    Except String (PyStr × RNG) × Nat :=
  match buildCandidate p g with
  | .error e => (.error e, 1)
  | .ok (password, g') =>
    if check_max_consecutive password p.max_consecutive_same
        && check_deny_substrings p password then
      (.ok (password, g'), 1)
    else
      if h : attempts + 1 ≥ max_attempts then
        (.error (exhaustMsg max_attempts), 1)
      else
        ((generateAux p max_attempts (attempts + 1) g').1,
          (generateAux p max_attempts (attempts + 1) g').2 + 1)
termination_by (max_attempts - attempts).toNat
decreasing_by omega

/-- The `generate` method with its default budget made explicit
(`max_attempts=1000` at the call sites). -/
def generate (p : PasswordPolicy) (max_attempts : Int) (g : RNG) :
    Except String (PyStr × RNG) :=
  (generateAux p max_attempts 0 g).1

/-- Ghost observer: how many candidates a `generate` call constructs. -/
def generateAttempts (p : PasswordPolicy) (max_attempts : Int) (g : RNG) : Nat :=
  (generateAux p max_attempts 0 g).2

/-- The `PasswordGenerator` object: its only attribute is the policy
set in `__init__`; no method of the class assigns any attribute. -/
structure PasswordGenerator where
  policy : PasswordPolicy
deriving DecidableEq

/-- The `generate` method viewed as a state transformer on the
`PasswordGenerator` object: the method body contains no assignment to
`self` or to `self.policy`, so the object after the call is the object
before it. -/
def PasswordGenerator.generateM (gen : PasswordGenerator) (max_attempts : Int)
    (g : RNG) : (Except String (PyStr × RNG)) × PasswordGenerator :=
  (generate gen.policy max_attempts g, gen)

/-! ### Character classes and basic facts about the random primitives -/

/-- ASCII uppercase letter, the range `_add_upper` draws from. -/
def isUpperC (c : Char) : Prop := 65 ≤ c.toNat ∧ c.toNat ≤ 90

/-- ASCII lowercase letter, the range `_add_lower` draws from. -/
def isLowerC (c : Char) : Prop := 97 ≤ c.toNat ∧ c.toNat ≤ 122

/-- ASCII decimal digit, the range `_add_digits` produces. -/
def isDigitC (c : Char) : Prop := 48 ≤ c.toNat ∧ c.toNat ≤ 57

theorem toNat_ofNat_small {n : Nat} (h : n < 55296) : (Char.ofNat n).toNat = n := by
  have hv : n.isValidChar := Or.inl h
  rw [Char.ofNat, dif_pos hv]
  simp only [Char.toNat, Char.ofNatAux, UInt32.ofNat', UInt32.toNat, BitVec.toNat_ofNatLt]

theorem randint_bounds {a b : Int} (g : RNG) (hab : a ≤ b) :
    a ≤ (randint a b g).1 ∧ (randint a b g).1 ≤ b := by
  unfold randint RNG.next
  have hpos : (0 : Int) < b - a + 1 := by omega
  have h1 : (0 : Int) ≤ ((g.f g.i : Nat) : Int) % (b - a + 1) :=
    Int.emod_nonneg _ (by omega)
  have h2 : ((g.f g.i : Nat) : Int) % (b - a + 1) < b - a + 1 :=
    Int.emod_lt_of_pos _ hpos
  constructor <;> simp <;> omega

theorem add_upper_spec (g : RNG) :
    ∃ c, (add_upper g).1 = [c] ∧ isUpperC c := by
  unfold add_upper
  obtain ⟨h1, h2⟩ := @randint_bounds 65 90 g (by omega)
  refine ⟨_, rfl, ?_, ?_⟩ <;>
    rw [toNat_ofNat_small (by omega)] <;> omega

theorem add_lower_spec (g : RNG) :
    ∃ c, (add_lower g).1 = [c] ∧ isLowerC c := by
  unfold add_lower
  obtain ⟨h1, h2⟩ := @randint_bounds 97 122 g (by omega)
  refine ⟨_, rfl, ?_, ?_⟩ <;>
    rw [toNat_ofNat_small (by omega)] <;> omega

theorem add_digits_spec (g : RNG) :
    ∃ c, (add_digits g).1 = [c] ∧ isDigitC c := by
  unfold add_digits
  obtain ⟨h1, h2⟩ := @randint_bounds 0 9 g (by omega)
  refine ⟨_, rfl, ?_, ?_⟩ <;>
    rw [toNat_ofNat_small (by omega)] <;> omega

theorem add_specials_ok {p : PasswordPolicy} {g : RNG} {s : PyStr} {g' : RNG}
    (h : add_specials p g = .ok (s, g')) :
    ∃ l, p.allowed_specials = some l ∧ s ∈ l := by
  unfold add_specials at h
  cases hsp : p.allowed_specials with
  | none => rw [hsp] at h; exact absurd h (by simp)
  | some l =>
    rw [hsp] at h
    dsimp only at h
    by_cases hl : l = []
    · rw [if_pos hl] at h; exact absurd h (by simp)
    · rw [if_neg hl] at h
      simp only [Except.ok.injEq, Prod.mk.injEq] at h
      refine ⟨l, rfl, ?_⟩
      rw [← h.1]
      have hlt : g.next.1 % l.length < l.length :=
        Nat.mod_lt _ (List.length_pos.mpr hl)
      rw [List.getD_eq_getElem?_getD, List.getElem?_eq_getElem hlt]
      simp [List.getElem_mem]

theorem add_specials_requires {p : PasswordPolicy} {g : RNG}
    (hv : ∃ l, p.allowed_specials = some l ∧ l ≠ []) :
    ∃ s g', add_specials p g = .ok (s, g') := by
  obtain ⟨l, hl, hne⟩ := hv
  unfold add_specials
  rw [hl]
  dsimp only
  rw [if_neg hne]
  exact ⟨_, _, rfl⟩

/-! ### Consequences of a policy passing `validate_rules` -/

set_option maxHeartbeats 1000000 in
theorem validate_ok_facts {p : PasswordPolicy} (h : validate_rules p = .ok ()) :
    0 < p.length_min ∧ p.length_min ≤ p.length_max ∧ p.length_max ≤ 1024 ∧
      requiredCount p ≤ p.length_max ∧
      (p.require_specials = true →
        ∃ l, p.allowed_specials = some l ∧ l ≠ [] ∧ ∀ s ∈ l, s.length = 1) ∧
      (∀ m, p.max_consecutive_same = some m → 1 ≤ m) ∧
      (p.no_whitespace = true → ∀ l, p.allowed_specials = some l →
        ∀ s ∈ l, pyIsSpace s = false) ∧
      (∀ d, p.deny_substrings = some d → ∀ s ∈ d, s ≠ []) := by
  unfold validate_rules at h
  split_ifs at h with h1 h2 h3 h4 h5 h6 h7 h8 h9 h10
  push_neg at h1 h2 h3 h4 h5 h6 h7 h8 h9 h10
  refine ⟨by omega, by omega, by omega, by omega, ?_, ?_, ?_, ?_⟩
  · intro hs
    cases hsp : p.allowed_specials with
    | none => exact absurd hsp (h3 hs)
    | some l =>
      refine ⟨l, rfl, ?_, ?_⟩
      · intro hl
        exact (h4 hs) (by rw [hsp, hl]; rfl)
      · intro s hsl
        have := h5 hs
        rw [hsp] at this
        simpa using this s hsl
  · intro m hm
    rw [hm] at h9
    simpa using h9
  · intro hw l hl s hsl
    have := h8 hw
    rw [hl] at this
    simpa using this s hsl
  · intro d hd s hsd
    rw [hd] at h6
    simpa using h6 s hsd

/-- Character sources available during generation: a single character of
one of the three always-on ASCII classes, or (when `require_specials`)
an element of `allowed_specials`. -/
def fromGen (p : PasswordPolicy) (s : PyStr) : Prop :=
  (∃ c, s = [c] ∧ (isUpperC c ∨ isLowerC c ∨ isDigitC c)) ∨
    (p.require_specials = true ∧ ∃ l, p.allowed_specials = some l ∧ s ∈ l)

theorem fromGen_upper {p : PasswordPolicy} (g : RNG) : fromGen p (add_upper g).1 := by
  obtain ⟨c, hc, hcU⟩ := add_upper_spec g
  exact Or.inl ⟨c, hc, Or.inl hcU⟩

theorem fromGen_lower {p : PasswordPolicy} (g : RNG) : fromGen p (add_lower g).1 := by
  obtain ⟨c, hc, hcL⟩ := add_lower_spec g
  exact Or.inl ⟨c, hc, Or.inr (Or.inl hcL)⟩

theorem fromGen_digits {p : PasswordPolicy} (g : RNG) : fromGen p (add_digits g).1 := by
  obtain ⟨c, hc, hcD⟩ := add_digits_spec g
  exact Or.inl ⟨c, hc, Or.inr (Or.inr hcD)⟩

theorem fromGen_specials {p : PasswordPolicy} {g : RNG} {s : PyStr} {g' : RNG}
    (hs : p.require_specials = true) (h : add_specials p g = .ok (s, g')) :
    fromGen p s :=
  Or.inr ⟨hs, add_specials_ok h⟩

/-! ### The seeding phase -/

theorem seedSpecialStage {p : PasswordPolicy} {pre : List PyStr} {g : RNG}
    {l : List PyStr} {g' : RNG}
    (h : (match add_specials p g with
          | .error e => .error e
          | .ok sg => Except.ok (pre ++ [sg.1], sg.2)) = Except.ok (l, g')) :
    ∃ s grest, add_specials p g = .ok (s, grest) ∧ l = pre ++ [s] ∧ g' = grest := by
  cases hA : add_specials p g with
  | error e => rw [hA] at h; exact absurd h (by simp)
  | ok sg =>
    rw [hA] at h
    simp only [Except.ok.injEq, Prod.mk.injEq] at h
    exact ⟨sg.1, sg.2, by simp [hA], h.1.symm, h.2.symm⟩

theorem specialsStage_ok {p : PasswordPolicy} (pre : List PyStr) (g : RNG)
    (hv : ∃ l, p.allowed_specials = some l ∧ l ≠ []) :
    ∃ l g', (match add_specials p g with
             | .error e => .error e
             | .ok sg => Except.ok (pre ++ [sg.1], sg.2)) = Except.ok (l, g') := by
  obtain ⟨s, g', hA⟩ := @add_specials_requires _ g hv
  exact ⟨pre ++ [s], g', by rw [hA]⟩

theorem seedUpper_spec (p : PasswordPolicy) (g : RNG) :
    (∀ s ∈ (seedUpper p g).1, fromGen p s) ∧
      ((seedUpper p g).1.length : Int) = (if p.require_upper then 1 else 0) ∧
      (p.require_upper = true → ∃ s ∈ (seedUpper p g).1, ∃ c, s = [c] ∧ isUpperC c) := by
  unfold seedUpper
  cases hu : p.require_upper with
  | false => simp
  | true =>
    obtain ⟨c, hc, hcC⟩ := add_upper_spec g
    simp only [if_true, ite_true]
    refine ⟨?_, by simp, fun _ => ⟨_, by simp, c, hc, hcC⟩⟩
    intro s hs
    simp only [List.mem_singleton] at hs
    subst hs
    exact fromGen_upper g

theorem seedLower_spec (p : PasswordPolicy) (r : List PyStr × RNG) :
    (∃ t, (seedLower p r).1 = r.1 ++ t ∧ ∀ s ∈ t, fromGen p s) ∧
      ((seedLower p r).1.length : Int)
        = r.1.length + (if p.require_lower then 1 else 0) ∧
      (p.require_lower = true →
        ∃ s ∈ (seedLower p r).1, ∃ c, s = [c] ∧ isLowerC c) := by
  unfold seedLower
  cases hl : p.require_lower with
  | false => simp
  | true =>
    obtain ⟨c, hc, hcC⟩ := add_lower_spec r.2
    simp only [if_true, ite_true]
    refine ⟨⟨[(add_lower r.2).1], rfl, ?_⟩, by simp, fun _ => ⟨_, by simp, c, hc, hcC⟩⟩
    intro s hs
    simp only [List.mem_singleton] at hs
    subst hs
    exact fromGen_lower r.2

theorem seedDigits_spec (p : PasswordPolicy) (r : List PyStr × RNG) :
    (∃ t, (seedDigits p r).1 = r.1 ++ t ∧ ∀ s ∈ t, fromGen p s) ∧
      ((seedDigits p r).1.length : Int)
        = r.1.length + (if p.require_digits then 1 else 0) ∧
      (p.require_digits = true →
        ∃ s ∈ (seedDigits p r).1, ∃ c, s = [c] ∧ isDigitC c) := by
  unfold seedDigits
  cases hd : p.require_digits with
  | false => simp
  | true =>
    obtain ⟨c, hc, hcC⟩ := add_digits_spec r.2
    simp only [if_true, ite_true]
    refine ⟨⟨[(add_digits r.2).1], rfl, ?_⟩, by simp, fun _ => ⟨_, by simp, c, hc, hcC⟩⟩
    intro s hs
    simp only [List.mem_singleton] at hs
    subst hs
    exact fromGen_digits r.2

theorem seedRequired_ok {p : PasswordPolicy} (g : RNG)
    (hv : p.require_specials = true → ∃ l, p.allowed_specials = some l ∧ l ≠ []) :
    ∃ l g', seedRequired p g = .ok (l, g') := by
  unfold seedRequired
  cases hsp : p.require_specials with
  | false =>
    simp only [hsp, Bool.false_eq_true, if_false, ite_false, Except.ok.injEq]
    exact ⟨_, _, rfl⟩
  | true =>
    simp only [hsp, if_true, ite_true]
    exact specialsStage_ok _ _ (hv hsp)

theorem seedRequired_spec {p : PasswordPolicy} {g : RNG} {l : List PyStr} {g' : RNG}
    (h : seedRequired p g = .ok (l, g')) :
    (∀ s ∈ l, fromGen p s) ∧
      (l.length : Int) = requiredCount p ∧
      (p.require_upper = true → ∃ s ∈ l, ∃ c, s = [c] ∧ isUpperC c) ∧
      (p.require_lower = true → ∃ s ∈ l, ∃ c, s = [c] ∧ isLowerC c) ∧
      (p.require_digits = true → ∃ s ∈ l, ∃ c, s = [c] ∧ isDigitC c) ∧
      (p.require_specials = true →
        ∃ s ∈ l, ∃ sp, p.allowed_specials = some sp ∧ s ∈ sp) := by
  obtain ⟨hu1, hu2, hu3⟩ := seedUpper_spec p g
  obtain ⟨⟨t2, ht2, ht2g⟩, hl2, hl3⟩ := seedLower_spec p (seedUpper p g)
  obtain ⟨⟨t3, ht3, ht3g⟩, hd2, hd3⟩ := seedDigits_spec p (seedLower p (seedUpper p g))
  set r3 := seedDigits p (seedLower p (seedUpper p g)) with hr3
  have hr3mem : ∀ s ∈ r3.1, fromGen p s := by
    intro s hs
    rw [ht3] at hs
    rcases List.mem_append.mp hs with hs | hs
    · rw [ht2] at hs
      rcases List.mem_append.mp hs with hs | hs
      · exact hu1 s hs
      · exact ht2g s hs
    · exact ht3g s hs
  have hr3len : (r3.1.length : Int) = (if p.require_upper then 1 else 0)
      + (if p.require_lower then 1 else 0) + (if p.require_digits then 1 else 0) := by
    rw [hd2, hl2, hu2]
  unfold seedRequired at h
  rw [← hr3] at h
  cases hsp : p.require_specials with
  | false =>
    rw [hsp] at h
    simp only [Bool.false_eq_true, if_false, ite_false, Except.ok.injEq] at h
    have hl : l = r3.1 := by rw [h]
    have hg : g' = r3.2 := by rw [h]
    subst hl
    refine ⟨hr3mem, ?_, ?_, ?_, ?_, by simp [hsp]⟩
    · rw [hr3len]; simp [requiredCount, hsp]
    · intro hu
      obtain ⟨s, hs, hw⟩ := hu3 hu
      exact ⟨s, by rw [ht3, ht2]; simp [hs], hw⟩
    · intro hlw
      obtain ⟨s, hs, hw⟩ := hl3 hlw
      exact ⟨s, by rw [ht3]; simp [hs], hw⟩
    · exact hd3
  | true =>
    rw [hsp] at h
    simp only [if_true, ite_true] at h
    obtain ⟨sc, grest, hA, rfl, rfl⟩ := seedSpecialStage h
    obtain ⟨spl, hspl, hmem⟩ := add_specials_ok hA
    refine ⟨?_, ?_, ?_, ?_, ?_, ?_⟩
    · intro s hs
      rcases List.mem_append.mp hs with hs | hs
      · exact hr3mem s hs
      · rw [List.mem_singleton] at hs
        subst hs
        exact fromGen_specials hsp hA
    · rw [List.length_append, List.length_singleton]
      push_cast
      rw [hr3len]
      simp [requiredCount, hsp]
    · intro hu
      obtain ⟨s, hs, hw⟩ := hu3 hu
      exact ⟨s, by rw [ht3, ht2]; simp [hs], hw⟩
    · intro hlw
      obtain ⟨s, hs, hw⟩ := hl3 hlw
      exact ⟨s, by rw [ht3]; simp [hs], hw⟩
    · intro hd
      obtain ⟨s, hs, hw⟩ := hd3 hd
      exact ⟨s, by simp [hs], hw⟩
    · exact fun _ => ⟨sc, by simp, spl, hspl, hmem⟩

/-! ### The fill loop -/

theorem fillLoop_spec {p : PasswordPolicy} {target : Int} {chars : List PyStr} {g : RNG} :
    ∀ {l : List PyStr} {g' : RNG}, fillLoop p target chars g = .ok (l, g') →
      ∃ rest, l = chars ++ rest ∧ (∀ s ∈ rest, fromGen p s) ∧
        (l.length : Int) = max (chars.length : Int) target := by
  induction chars, g using fillLoop.induct p target with
  | case1 chars g hlt gens hmod =>
    rename_i ih
    intro l g' h
    rw [fillLoop, dif_pos hlt] at h
    dsimp only at h
    rw [show g.next.1 % (if p.require_specials = true then (4 : Nat) else 3) = 0
      from hmod] at h
    obtain ⟨rest, hrest, hgen, hlen⟩ := ih h
    refine ⟨(add_upper g.next.2).1 :: rest, by simpa using hrest, ?_, ?_⟩
    · intro s hs
      rcases List.mem_cons.mp hs with hs | hs
      · subst hs; exact fromGen_upper _
      · exact hgen s hs
    · simp only [List.length_append, List.length_singleton] at hlen
      push_cast at hlen ⊢
      omega
  | case2 chars g hlt gens hmod =>
    rename_i ih
    intro l g' h
    rw [fillLoop, dif_pos hlt] at h
    dsimp only at h
    rw [show g.next.1 % (if p.require_specials = true then (4 : Nat) else 3) = 1
      from hmod] at h
    obtain ⟨rest, hrest, hgen, hlen⟩ := ih h
    refine ⟨(add_lower g.next.2).1 :: rest, by simpa using hrest, ?_, ?_⟩
    · intro s hs
      rcases List.mem_cons.mp hs with hs | hs
      · subst hs; exact fromGen_lower _
      · exact hgen s hs
    · simp only [List.length_append, List.length_singleton] at hlen
      push_cast at hlen ⊢
      omega
  | case3 chars g hlt gens hmod =>
    rename_i ih
    intro l g' h
    rw [fillLoop, dif_pos hlt] at h
    dsimp only at h
    rw [show g.next.1 % (if p.require_specials = true then (4 : Nat) else 3) = 2
      from hmod] at h
    obtain ⟨rest, hrest, hgen, hlen⟩ := ih h
    refine ⟨(add_digits g.next.2).1 :: rest, by simpa using hrest, ?_, ?_⟩
    · intro s hs
      rcases List.mem_cons.mp hs with hs | hs
      · subst hs; exact fromGen_digits _
      · exact hgen s hs
    · simp only [List.length_append, List.length_singleton] at hlen
      push_cast at hlen ⊢
      omega
  | case4 chars g hlt gens n hmod e =>
    rename_i hA
    intro l g' h
    rw [fillLoop, dif_pos hlt] at h
    dsimp only at h
    rw [show g.next.1 % (if p.require_specials = true then (4 : Nat) else 3)
      = n.succ.succ.succ from hmod, hA] at h
    exact absurd h (by simp)
  | case5 chars g hlt gens n hmod sg =>
    rename_i hA ih
    intro l g' h
    have hmod' : g.next.1 % (if p.require_specials = true then (4 : Nat) else 3)
        = n.succ.succ.succ := hmod
    have hs : p.require_specials = true := by
      by_contra hs
      rw [if_neg hs] at hmod'
      have := Nat.mod_lt (g.next.1) (show 0 < 3 by omega)
      omega
    rw [fillLoop, dif_pos hlt] at h
    dsimp only at h
    rw [hmod', hA] at h
    obtain ⟨rest, hrest, hgen, hlen⟩ := ih h
    refine ⟨sg.1 :: rest, by simpa using hrest, ?_, ?_⟩
    · intro s hs'
      rcases List.mem_cons.mp hs' with hs' | hs'
      · subst hs'
        exact fromGen_specials hs (by rw [hA])
      · exact hgen s hs'
    · simp only [List.length_append, List.length_singleton] at hlen
      push_cast at hlen ⊢
      omega
  | case6 chars g hge =>
    intro l g' h
    rw [fillLoop, dif_neg hge] at h
    simp only [Except.ok.injEq, Prod.mk.injEq] at h
    obtain ⟨hl, _⟩ := h
    subst hl
    exact ⟨[], by simp, by simp, by omega⟩

theorem fillLoop_ok {p : PasswordPolicy} {target : Int} (chars : List PyStr) (g : RNG)
    (hv : p.require_specials = true → ∃ l, p.allowed_specials = some l ∧ l ≠ []) :
    ∃ l g', fillLoop p target chars g = .ok (l, g') := by
  induction chars, g using fillLoop.induct p target with
  | case1 chars g hlt gens hmod =>
    rename_i ih
    obtain ⟨l, g', ih⟩ := ih
    refine ⟨l, g', ?_⟩
    rw [fillLoop, dif_pos hlt]
    dsimp only
    rw [show g.next.1 % (if p.require_specials = true then (4 : Nat) else 3) = 0
      from hmod]
    exact ih
  | case2 chars g hlt gens hmod =>
    rename_i ih
    obtain ⟨l, g', ih⟩ := ih
    refine ⟨l, g', ?_⟩
    rw [fillLoop, dif_pos hlt]
    dsimp only
    rw [show g.next.1 % (if p.require_specials = true then (4 : Nat) else 3) = 1
      from hmod]
    exact ih
  | case3 chars g hlt gens hmod =>
    rename_i ih
    obtain ⟨l, g', ih⟩ := ih
    refine ⟨l, g', ?_⟩
    rw [fillLoop, dif_pos hlt]
    dsimp only
    rw [show g.next.1 % (if p.require_specials = true then (4 : Nat) else 3) = 2
      from hmod]
    exact ih
  | case4 chars g hlt gens n hmod e =>
    rename_i hA
    exfalso
    have hmod' : g.next.1 % (if p.require_specials = true then (4 : Nat) else 3)
        = n.succ.succ.succ := hmod
    have hs : p.require_specials = true := by
      by_contra hs
      rw [if_neg hs] at hmod'
      have := Nat.mod_lt (g.next.1) (show 0 < 3 by omega)
      omega
    obtain ⟨s, g'', hA'⟩ := @add_specials_requires _ g.next.2 (hv hs)
    rw [hA] at hA'
    exact absurd hA' (by simp)
  | case5 chars g hlt gens n hmod sg =>
    rename_i hA ih
    obtain ⟨l, g', ih⟩ := ih
    refine ⟨l, g', ?_⟩
    rw [fillLoop, dif_pos hlt]
    dsimp only
    rw [show g.next.1 % (if p.require_specials = true then (4 : Nat) else 3)
      = n.succ.succ.succ from hmod, hA]
    exact ih
  | case6 chars g hge =>
    exact ⟨chars, g, by rw [fillLoop, dif_neg hge]⟩

/-! ### The shuffle step -/

theorem cons_eraseIdx_perm {α : Type} [DecidableEq α] (l : List α) (j : Nat)
    (hj : j < l.length) : List.Perm (l[j] :: l.eraseIdx j) l :=
  ((List.perm_cons_erase (l.getElem_mem hj)).trans
    (List.Perm.cons _ (List.erase_getElem hj))).symm

theorem shuffleList_perm : ∀ (l : List PyStr) (g : RNG),
    List.Perm (shuffleList l g).1 l := by
  intro l g
  induction l, g using shuffleList.induct with
  | case1 g => simp [shuffleList]
  | case2 x xs g =>
    rename_i ih
    rw [shuffleList]
    have hj : (g.next.1 % (x :: xs).length) < (x :: xs).length :=
      Nat.mod_lt _ (by simp)
    have hget : (x :: xs).getD (g.next.1 % (x :: xs).length) []
        = (x :: xs)[g.next.1 % (x :: xs).length] := by
      rw [List.getD_eq_getElem?_getD, List.getElem?_eq_getElem hj]
      rfl
    rw [hget]
    exact (List.Perm.cons _ ih).trans (cons_eraseIdx_perm _ _ hj)

theorem flatten_length_of_singletons {L : List PyStr}
    (h : ∀ s ∈ L, s.length = 1) : L.flatten.length = L.length := by
  induction L with
  | nil => simp
  | cons a L ih =>
    simp only [List.flatten_cons, List.length_append, List.length_cons]
    rw [h a (by simp), ih (fun s hs => h s (by simp [hs]))]
    omega

/-! ### Target length -/

theorem get_target_length_spec {p : PasswordPolicy} {g : RNG} {t : Int} {g' : RNG}
    (h : get_target_length p g = .ok (t, g')) :
    max p.length_min (requiredCount p) ≤ t ∧ t ≤ p.length_max := by
  unfold get_target_length at h
  dsimp only at h
  split_ifs at h with h1 h2 h3
  simp only [Except.ok.injEq] at h
  have ht : t = (randint (max p.length_min (requiredCount p)) p.length_max g).1 := by
    rw [h]
  obtain ⟨hb1, hb2⟩ := @randint_bounds
    (max p.length_min (requiredCount p)) p.length_max g (by omega)
  rw [ht]
  exact ⟨hb1, hb2⟩

theorem get_target_length_ok {p : PasswordPolicy} (hv : validate_rules p = .ok ())
    (g : RNG) : ∃ t g', get_target_length p g = .ok (t, g') := by
  obtain ⟨f1, f2, _, f4, _⟩ := validate_ok_facts hv
  unfold get_target_length
  dsimp only
  split_ifs with h1 h2 h3
  · omega
  · omega
  · omega
  · exact ⟨_, _, rfl⟩

/-! ### Candidate construction -/

theorem fromGen_len1 {p : PasswordPolicy} (hv : validate_rules p = .ok ())
    {s : PyStr} (h : fromGen p s) : s.length = 1 := by
  rcases h with ⟨c, rfl, _⟩ | ⟨hs, l, hl, hmem⟩
  · rfl
  · obtain ⟨l', hl', _, hlen⟩ := (validate_ok_facts hv).2.2.2.2.1 hs
    rw [hl] at hl'
    simp only [Option.some.injEq] at hl'
    subst hl'
    exact hlen s hmem

theorem buildCandidate_spec {p : PasswordPolicy} (hv : validate_rules p = .ok ())
    {g : RNG} {pw : PyStr} {g' : RNG} (h : buildCandidate p g = .ok (pw, g')) :
    (∃ t g1, get_target_length p g = .ok (t, g1) ∧ (pw.length : Int) = t) ∧
      (∀ c ∈ pw, ∃ s, fromGen p s ∧ c ∈ s) ∧
      (p.require_upper = true → ∃ c ∈ pw, isUpperC c) ∧
      (p.require_lower = true → ∃ c ∈ pw, isLowerC c) ∧
      (p.require_digits = true → ∃ c ∈ pw, isDigitC c) ∧
      (p.require_specials = true →
        ∃ c ∈ pw, ∃ sp s, p.allowed_specials = some sp ∧ s ∈ sp ∧ c ∈ s) := by
  unfold buildCandidate at h
  cases hT : get_target_length p g with
  | error e => rw [hT] at h; exact absurd h (by simp)
  | ok tg =>
    rw [hT] at h
    dsimp only at h
    cases hS : seedRequired p tg.2 with
    | error e => rw [hS] at h; exact absurd h (by simp)
    | ok sd =>
      rw [hS] at h
      dsimp only at h
      cases hF : fillLoop p tg.1 sd.1 sd.2 with
      | error e => rw [hF] at h; exact absurd h (by simp)
      | ok fl =>
        rw [hF] at h
        dsimp only [shuffle] at h
        simp only [Except.ok.injEq, Prod.mk.injEq] at h
        obtain ⟨hpw, _⟩ := h
        obtain ⟨htlo, hthi⟩ := @get_target_length_spec p g tg.1 tg.2
          (by rw [hT])
        obtain ⟨hseedGen, hseedLen, hU, hL, hD, hSp⟩ :=
          @seedRequired_spec p tg.2 sd.1 sd.2 (by rw [hS])
        obtain ⟨rest, hflEq, hrestGen, hflLen⟩ :=
          @fillLoop_spec p tg.1 sd.1 sd.2 fl.1 fl.2 (by rw [hF])
        have hperm := shuffleList_perm fl.1 fl.2
        have hflGen : ∀ s ∈ fl.1, fromGen p s := by
          intro s hs
          rw [hflEq] at hs
          rcases List.mem_append.mp hs with hs | hs
          · exact hseedGen s hs
          · exact hrestGen s hs
        have hshufGen : ∀ s ∈ (shuffleList fl.1 fl.2).1, fromGen p s := by
          intro s hs
          exact hflGen s (hperm.mem_iff.mp hs)
        have hlen1 : ∀ s ∈ (shuffleList fl.1 fl.2).1, s.length = 1 := by
          intro s hs
          exact fromGen_len1 hv (hshufGen s hs)
        have hpwLen : (pw.length : Int) = tg.1 := by
          rw [← hpw]
          rw [flatten_length_of_singletons hlen1, hperm.length_eq]
          rw [hflLen, hseedLen]
          have h1 : p.length_min ⊔ requiredCount p ≤ tg.1 := htlo
          omega
        have hmemOf : ∀ s ∈ fl.1, ∀ c ∈ s, c ∈ pw := by
          intro s hs c hc
          rw [← hpw]
          exact List.mem_flatten.mpr ⟨s, hperm.mem_iff.mpr hs, hc⟩
        have hseedSub : ∀ s ∈ sd.1, s ∈ fl.1 := by
          intro s hs
          rw [hflEq]
          exact List.mem_append.mpr (Or.inl hs)
        refine ⟨⟨tg.1, tg.2, by simp [hT], hpwLen⟩, ?_, ?_, ?_, ?_, ?_⟩
        · intro c hc
          rw [← hpw] at hc
          obtain ⟨s, hs, hcs⟩ := List.mem_flatten.mp hc
          exact ⟨s, hshufGen s hs, hcs⟩
        · intro hu
          obtain ⟨s, hs, c, rfl, hcC⟩ := hU hu
          exact ⟨c, hmemOf _ (hseedSub _ hs) c (by simp), hcC⟩
        · intro hl
          obtain ⟨s, hs, c, rfl, hcC⟩ := hL hl
          exact ⟨c, hmemOf _ (hseedSub _ hs) c (by simp), hcC⟩
        · intro hd
          obtain ⟨s, hs, c, rfl, hcC⟩ := hD hd
          exact ⟨c, hmemOf _ (hseedSub _ hs) c (by simp), hcC⟩
        · intro hsp
          obtain ⟨s, hs, sp, hsp', hmem⟩ := hSp hsp
          have hlen : s.length = 1 := fromGen_len1 hv (Or.inr ⟨hsp, sp, hsp', hmem⟩)
          obtain ⟨c, rfl⟩ : ∃ c, s = [c] := by
            cases s with
            | nil => simp at hlen
            | cons a t =>
              cases t with
              | nil => exact ⟨a, rfl⟩
              | cons b u => simp at hlen
          exact ⟨c, hmemOf _ (hseedSub _ hs) c (by simp), sp, [c], hsp', hmem, by simp⟩

theorem buildCandidate_ok {p : PasswordPolicy} (hv : validate_rules p = .ok ())
    (g : RNG) : ∃ pw g', buildCandidate p g = .ok (pw, g') := by
  have hspec : p.require_specials = true → ∃ l, p.allowed_specials = some l ∧ l ≠ [] := by
    intro hs
    obtain ⟨l, hl, hne, _⟩ := (validate_ok_facts hv).2.2.2.2.1 hs
    exact ⟨l, hl, hne⟩
  obtain ⟨t, g1, hT⟩ := get_target_length_ok hv g
  obtain ⟨sd, g2, hS⟩ := seedRequired_ok g1 hspec
  obtain ⟨fl, g3, hF⟩ := @fillLoop_ok p t sd g2 hspec
  refine ⟨(shuffleList fl g3).1.flatten, (shuffleList fl g3).2, ?_⟩
  unfold buildCandidate
  rw [hT]
  dsimp only
  rw [hS]
  dsimp only
  rw [hF]
  rfl

/-! ### The retry loop -/

theorem generateAux_ok_src {p : PasswordPolicy} {ma : Int} : ∀ {attempts : Int}
    {g : RNG} {pw : PyStr} {g' : RNG},
    (generateAux p ma attempts g).1 = .ok (pw, g') →
    ∃ g0, buildCandidate p g0 = .ok (pw, g') ∧
      check_max_consecutive pw p.max_consecutive_same = true ∧
      check_deny_substrings p pw = true := by
  intro attempts g
  induction attempts, g using generateAux.induct p ma with
  | case1 attempts g e hB =>
    intro pw g' h
    rw [generateAux, hB] at h
    exact absurd h (by simp)
  | case2 attempts g password gnext hB hC =>
    intro pw g' h
    rw [generateAux, hB] at h
    dsimp only at h
    rw [if_pos hC] at h
    simp only [Except.ok.injEq, Prod.mk.injEq] at h
    obtain ⟨rfl, rfl⟩ := h
    rw [Bool.and_eq_true] at hC
    exact ⟨g, hB, hC.1, hC.2⟩
  | case3 attempts g password gnext hB hC ha =>
    intro pw g' h
    rw [generateAux, hB] at h
    dsimp only at h
    rw [if_neg hC, dif_pos ha] at h
    exact absurd h (by simp)
  | case4 attempts g password gnext hB hC ha ih =>
    intro pw g' h
    rw [generateAux, hB] at h
    dsimp only at h
    rw [if_neg hC, dif_neg ha] at h
    exact ih h

theorem generateAux_cases {p : PasswordPolicy} (hv : validate_rules p = .ok ())
    {ma : Int} : ∀ (attempts : Int) (g : RNG),
    (∃ pw g', (generateAux p ma attempts g).1 = .ok (pw, g')) ∨
      (generateAux p ma attempts g).1 = .error (exhaustMsg ma) := by
  intro attempts g
  induction attempts, g using generateAux.induct p ma with
  | case1 attempts g e hB =>
    obtain ⟨pw, g', hB'⟩ := buildCandidate_ok hv g
    rw [hB] at hB'
    exact absurd hB' (by simp)
  | case2 attempts g password gnext hB hC =>
    left
    refine ⟨password, gnext, ?_⟩
    rw [generateAux, hB]
    dsimp only
    rw [if_pos hC]
  | case3 attempts g password gnext hB hC ha =>
    right
    rw [generateAux, hB]
    dsimp only
    rw [if_neg hC, dif_pos ha]
  | case4 attempts g password gnext hB hC ha ih =>
    rw [generateAux, hB]
    dsimp only
    rw [if_neg hC, dif_neg ha]
    exact ih

theorem generateAux_exhaust_count {p : PasswordPolicy}
    (hv : validate_rules p = .ok ()) {ma : Int} : ∀ (attempts : Int) (g : RNG),
    (generateAux p ma attempts g).1 = .error (exhaustMsg ma) →
    ((generateAux p ma attempts g).2 : Int) = max (ma - attempts) 1 := by
  intro attempts g
  induction attempts, g using generateAux.induct p ma with
  | case1 attempts g e hB =>
    obtain ⟨pw, g', hB'⟩ := buildCandidate_ok hv g
    rw [hB] at hB'
    exact absurd hB' (by simp)
  | case2 attempts g password gnext hB hC =>
    intro h
    rw [generateAux, hB] at h
    dsimp only at h
    rw [if_pos hC] at h
    exact absurd h (by simp)
  | case3 attempts g password gnext hB hC ha =>
    intro h
    rw [generateAux, hB]
    dsimp only
    rw [if_neg hC, dif_pos ha]
    simp only [Nat.cast_one]
    omega
  | case4 attempts g password gnext hB hC ha ih =>
    intro h
    rw [generateAux, hB] at h ⊢
    dsimp only at h ⊢
    rw [if_neg hC, dif_neg ha] at h ⊢
    have := ih h
    push_cast
    push_cast at this
    omega

/-! ### Substring occurrence -/

/-- Python `sub in s` semantics: `sub` is a contiguous segment of `s`. -/
def Seg (l₁ l₂ : List Char) : Prop := ∃ s t, s ++ l₁ ++ t = l₂

theorem isPfx_iff (a : PyStr) : ∀ b, isPfx a b = true ↔ ∃ t, a ++ t = b := by
  induction a with
  | nil => intro b; simp [isPfx]
  | cons x a ih =>
    intro b
    cases b with
    | nil => simp [isPfx]
    | cons y b =>
      rw [isPfx]
      simp only [Bool.and_eq_true, decide_eq_true_eq]
      constructor
      · rintro ⟨rfl, h⟩
        obtain ⟨t, rfl⟩ := (ih b).mp h
        exact ⟨t, rfl⟩
      · rintro ⟨t, h⟩
        injection h with h1 h2
        exact ⟨h1, (ih b).mpr ⟨t, h2⟩⟩

theorem hasSeg_iff (sub : PyStr) : ∀ l, hasSeg sub l = true ↔ Seg sub l := by
  intro l
  induction l with
  | nil =>
    rw [hasSeg, isPfx_iff]
    constructor
    · rintro ⟨t, h⟩
      exact ⟨[], t, by simpa using h⟩
    · rintro ⟨s, t, h⟩
      simp only [List.append_eq_nil] at h
      exact ⟨[], by simp [h.1.2]⟩
  | cons b l ih =>
    rw [hasSeg]
    simp only [Bool.or_eq_true]
    rw [isPfx_iff, ih]
    constructor
    · rintro (⟨t, h⟩ | ⟨s, t, h⟩)
      · exact ⟨[], t, by simpa using h⟩
      · exact ⟨b :: s, t, by simp [← h]⟩
    · rintro ⟨s, t, h⟩
      cases s with
      | nil => exact Or.inl ⟨t, by simpa using h⟩
      | cons x s =>
        injection h with h1 h2
        exact Or.inr ⟨s, t, h2⟩

theorem check_deny_iff (p : PasswordPolicy) (pw : PyStr) :
    (p.deny_substrings = none → check_deny_substrings p pw = true) ∧
      (∀ d, p.deny_substrings = some d →
        (check_deny_substrings p pw = true ↔ ∀ s ∈ d, ¬ Seg s pw)) := by
  constructor
  · intro h
    rw [check_deny_substrings, h]
  · intro d hd
    rw [check_deny_substrings, hd]
    simp only [List.all_eq_true, Bool.not_eq_true']
    constructor
    · intro h s hs
      have := h s hs
      rw [← hasSeg_iff]
      simp [this]
    · intro h s hs
      have := h s hs
      rw [← hasSeg_iff] at this
      simp only [Bool.not_eq_true] at this
      simp [this]

/-! ### Runs of identical characters -/

theorem replicate_decomp {x y : List Char} {a : Nat} {c : Char}
    (h : x ++ y = List.replicate a c) :
    x = List.replicate x.length c ∧ y = List.replicate y.length c := by
  constructor <;> rw [List.eq_replicate_iff] <;> refine ⟨rfl, ?_⟩ <;> intro b hb
  · exact List.eq_of_mem_replicate (h ▸ List.mem_append_left _ hb)
  · exact List.eq_of_mem_replicate (h ▸ List.mem_append_right _ hb)

theorem Seg_replicate {n a : Nat} {c c' : Char}
    (h : Seg (List.replicate n c) (List.replicate a c')) :
    n = 0 ∨ (c = c' ∧ n ≤ a) := by
  obtain ⟨s, t, hh⟩ := h
  cases n with
  | zero => exact Or.inl rfl
  | succ n =>
    right
    have hcmem : c ∈ List.replicate a c' := by
      rw [← hh]
      exact List.mem_append_left _ (List.mem_append_right _
        (List.mem_replicate.mpr ⟨by omega, rfl⟩))
    have hlen := congrArg List.length hh
    simp only [List.length_append, List.length_replicate] at hlen
    exact ⟨List.eq_of_mem_replicate hcmem, by omega⟩

theorem Seg_ext_left (pre : List Char) {sub l : List Char} (h : Seg sub l) :
    Seg sub (pre ++ l) := by
  obtain ⟨s, t, rfl⟩ := h
  exact ⟨pre ++ s, t, by simp⟩

theorem replicate_head_ne {c b : Char} {k : Nat} {l l' : List Char}
    (hne : b ≠ c) (h : List.replicate k c = b :: l') : False := by
  cases k with
  | zero => simp at h
  | succ k =>
    rw [List.replicate_succ] at h
    injection h with h1
    exact hne h1.symm

theorem Seg_replicate_split {a n : Nat} {c prev b : Char} {l : List Char}
    (hne : prev ≠ b)
    (h : Seg (List.replicate n c) (List.replicate a prev ++ b :: l)) :
    n = 0 ∨ (c = prev ∧ n ≤ a) ∨ Seg (List.replicate n c) (b :: l) := by
  obtain ⟨s, t, hh⟩ := h
  rw [List.append_assoc] at hh
  rcases List.append_eq_append_iff.mp hh with ⟨a', ha1, ha2⟩ | ⟨c', _, hc2⟩
  · -- List.replicate a prev = s ++ a'  and  List.replicate n c ++ t = a' ++ b :: l
    obtain ⟨_, ha'rep⟩ := replicate_decomp ha1.symm
    have ha'len : a'.length ≤ a := by
      have := congrArg List.length ha1
      simp only [List.length_append, List.length_replicate] at this
      omega
    rcases List.append_eq_append_iff.mp ha2 with ⟨x, hx1, _⟩ | ⟨y, hy1, hy2⟩
    · -- a' = List.replicate n c ++ x : the whole run sits inside the prev block
      cases n with
      | zero => exact Or.inl rfl
      | succ n =>
        obtain ⟨hrep, _⟩ := @replicate_decomp (List.replicate (n + 1) c) x _ _
          (by rw [← hx1, ha'rep])
        have hc : c = prev := by
          have hcm : c ∈ List.replicate (List.replicate (n + 1) c).length prev := by
            rw [← hrep]
            exact List.mem_replicate.mpr ⟨by simp, rfl⟩
          exact List.eq_of_mem_replicate hcm
        have hlen : n + 1 ≤ a'.length := by
          have := congrArg List.length hx1
          simp only [List.length_append, List.length_replicate] at this
          omega
        exact Or.inr (Or.inl ⟨hc, by omega⟩)
    · -- List.replicate n c = a' ++ y  and  b :: l = y ++ t
      obtain ⟨ha'c, hyc⟩ := replicate_decomp hy1.symm
      cases a' with
      | nil =>
        -- the whole run starts at b
        right; right
        refine ⟨[], t, ?_⟩
        rw [List.nil_append] at hy1
        rw [List.nil_append, hy1]
        exact hy2.symm
      | cons x a'' =>
        -- the run overlaps the prev block, so c = prev
        cases n with
        | zero =>
          have := congrArg List.length hy1
          simp only [List.length_replicate, List.length_append, List.length_cons] at this
          omega
        | succ n =>
          have hx : x = c := by
            have : x ∈ List.replicate (n + 1) c := by
              rw [hy1]
              exact List.mem_append_left _ (by simp)
            exact List.eq_of_mem_replicate this
          have hxp : x = prev := by
            have : x ∈ List.replicate (x :: a'').length prev := by
              rw [← ha'rep]
              simp
            exact List.eq_of_mem_replicate this
          have hc : c = prev := hx ▸ hxp
          cases y with
          | nil =>
            -- run equals a', entirely inside the prev block
            rw [List.append_nil] at hy1
            have hlen : n + 1 ≤ a := by
              have := congrArg List.length hy1
              simp only [List.length_replicate] at this
              omega
            exact Or.inr (Or.inl ⟨hc, hlen⟩)
          | cons z y' =>
            -- y nonempty: its head is c, but it is also b, contradicting prev ≠ b
            exfalso
            have hz : z = c := by
              have : z ∈ List.replicate (n + 1) c := by
                rw [hy1]
                exact List.mem_append_right _ (by simp)
              exact List.eq_of_mem_replicate this
            have hb : b = z := by
              injection hy2
            exact hne (by rw [hb, hz, hc])
  · -- the run lies entirely within b :: l
    right; right
    exact ⟨c', t, by rw [List.append_assoc]; exact hc2.symm⟩

theorem consecLoop_iff (m : Int) : ∀ (rest : List Char) (prev : Char) (cnt : Nat),
    1 ≤ cnt → (cnt : Int) ≤ m →
    (consecLoop m rest prev (cnt : Int) = true ↔
      ∀ (c : Char) (n : Nat),
        Seg (List.replicate n c) (List.replicate cnt prev ++ rest) →
        (n : Int) ≤ m) := by
  intro rest
  induction rest with
  | nil =>
    intro prev cnt h1 h2
    rw [consecLoop]
    simp only [List.append_nil, true_iff]
    intro c n hseg
    rcases Seg_replicate hseg with rfl | ⟨rfl, hle⟩
    · push_cast; omega
    · push_cast; omega
  | cons c0 rest ih =>
    intro prev cnt h1 h2
    have hlist : List.replicate cnt prev ++ c0 :: rest
        = List.replicate cnt prev ++ c0 :: rest := rfl
    by_cases hc : c0 = prev
    · subst hc
      have hlist2 : List.replicate cnt c0 ++ c0 :: rest
          = List.replicate (cnt + 1) c0 ++ rest := by
        rw [List.replicate_succ', List.append_assoc, List.singleton_append]
      rw [consecLoop, if_pos rfl]
      by_cases hgt : (cnt : Int) + 1 > m
      · rw [if_pos hgt]
        simp only [Bool.false_eq_true, false_iff, not_forall]
        refine ⟨c0, cnt + 1, ?_⟩
        simp only [not_forall, exists_prop]
        refine ⟨?_, by push_cast; omega⟩
        rw [hlist2]
        exact ⟨[], rest, by simp⟩
      · rw [if_neg hgt]
        have := ih c0 (cnt + 1) (by omega) (by push_cast at hgt ⊢; omega)
        rw [show (((cnt : Nat) + 1 : Nat) : Int) = (cnt : Int) + 1 by push_cast; ring] at this
        rw [this, hlist2]
    · rw [consecLoop, if_neg hc]
      have := ih c0 1 (by omega) (by omega)
      rw [show ((1 : Nat) : Int) = (1 : Int) by norm_num] at this
      rw [this]
      simp only [List.replicate_one, List.singleton_append]
      constructor
      · intro h c n hseg
        rcases Seg_replicate_split (fun hpc => hc hpc.symm) hseg with rfl | ⟨_, hle⟩ | hseg'
        · push_cast; omega
        · push_cast; omega
        · exact h c n hseg'
      · intro h c n hseg
        exact h c n (Seg_ext_left _ hseg)

theorem check_max_consecutive_none (pw : PyStr) :
    check_max_consecutive pw none = true := rfl

theorem check_max_consecutive_iff (pw : PyStr) (k : Int) (hk : 1 ≤ k) :
    check_max_consecutive pw (some k) = true ↔
      ∀ (c : Char) (n : Nat), Seg (List.replicate n c) pw → (n : Int) ≤ k := by
  cases pw with
  | nil =>
    rw [check_max_consecutive]
    simp only [true_iff]
    intro c n hseg
    obtain ⟨s, t, hh⟩ := hseg
    have := congrArg List.length hh
    simp only [List.length_append, List.length_replicate, List.length_nil] at this
    omega
  | cons c rest =>
    rw [check_max_consecutive]
    have h := consecLoop_iff k rest c 1 (by omega) (by omega)
    rw [show ((1 : Nat) : Int) = (1 : Int) by norm_num] at h
    simpa using h

/-! ### Concrete instances for witnesses -/

theorem isSpaceChar_toNat {c : Char} (h : isSpaceChar c = true) : c.toNat ≤ 32 := by
  rw [isSpaceChar] at h
  simp only [Bool.or_eq_true, decide_eq_true_eq] at h
  rcases h with ((((rfl | rfl) | rfl) | rfl) | rfl) | rfl <;> decide

/-- A valid witness policy: all four categories required, small lengths,
two deny substrings, a run bound of 2. -/
def witPolicy : PasswordPolicy :=
  { length_min := 4, length_max := 6, require_upper := true, require_lower := true,
    require_digits := true, require_specials := true,
    allowed_specials := some [['%'], ['!'], ['@'], ['+']],
    deny_substrings := some [['p', '%'], ['a', '!']],
    max_consecutive_same := some 2, no_whitespace := true }

/-- A concrete random stream that always yields 0. -/
def witRNG : RNG := ⟨fun _ => 0, 0⟩

theorem wit_validate : validate_rules witPolicy = .ok () := by rfl

theorem wit_target : get_target_length witPolicy witRNG = .ok (4, ⟨fun _ => 0, 1⟩) := by
  rfl

theorem wit_seed : seedRequired witPolicy ⟨fun _ => 0, 1⟩
    = .ok ([['A'], ['a'], ['0'], ['%']], ⟨fun _ => 0, 5⟩) := by rfl

theorem wit_fill : fillLoop witPolicy 4 [['A'], ['a'], ['0'], ['%']] ⟨fun _ => 0, 5⟩
    = .ok ([['A'], ['a'], ['0'], ['%']], ⟨fun _ => 0, 5⟩) := by
  rw [fillLoop]
  norm_num

theorem wit_shuf : shuffleList [['A'], ['a'], ['0'], ['%']] ⟨fun _ => 0, 5⟩
    = ([['A'], ['a'], ['0'], ['%']], ⟨fun _ => 0, 9⟩) := by
  simp [shuffleList.eq_def, RNG.next]

theorem wit_build : buildCandidate witPolicy witRNG
    = .ok (['A', 'a', '0', '%'], ⟨fun _ => 0, 9⟩) := by
  rw [buildCandidate, wit_target]
  dsimp only
  rw [wit_seed]
  dsimp only
  rw [wit_fill]
  dsimp only [shuffle]
  rw [wit_shuf]
  rfl

theorem wit_gen : generate witPolicy 1000 witRNG
    = .ok (['A', 'a', '0', '%'], ⟨fun _ => 0, 9⟩) := by
  rw [generate, generateAux, wit_build]
  norm_num
  rw [if_pos (⟨by rfl, by rfl⟩ : check_max_consecutive ['A', 'a', '0', '%']
    witPolicy.max_consecutive_same = true ∧
    check_deny_substrings witPolicy ['A', 'a', '0', '%'] = true)]

/-- A policy exhibiting a multi-character `allowed_specials` entry while
`require_specials` is off; `validate_rules` accepts it. -/
def c6Policy : PasswordPolicy :=
  { length_min := 12, length_max := 24, require_upper := true, require_lower := true,
    require_digits := true, require_specials := false,
    allowed_specials := some [['a', 'b']], deny_substrings := none,
    max_consecutive_same := none, no_whitespace := true }

/-! ### Claim theorems -/

/-- C1: for every validated policy, a password returned by `generate`
has length between `length_min` and `length_max`; internally the target
length always lies in `[max(length_min, requiredCount), length_max]`,
and the returned password has exactly the target length drawn in its
successful attempt. -/
theorem C1_generated_length {p : PasswordPolicy} (hv : validate_rules p = .ok ())
    {ma : Int} {g : RNG} {pw : PyStr} {g' : RNG}
    (h : generate p ma g = .ok (pw, g')) :
    (p.length_min ≤ (pw.length : Int) ∧ (pw.length : Int) ≤ p.length_max) ∧
      (∀ (g0 : RNG) (t : Int) (g1 : RNG), get_target_length p g0 = .ok (t, g1) →
        max p.length_min (requiredCount p) ≤ t ∧ t ≤ p.length_max) ∧
      (∃ (g0 : RNG) (t : Int) (g1 : RNG), buildCandidate p g0 = .ok (pw, g') ∧
        get_target_length p g0 = .ok (t, g1) ∧ (pw.length : Int) = t) := by
  obtain ⟨g0, hB, _, _⟩ := generateAux_ok_src
    (show (generateAux p ma 0 g).1 = Except.ok (pw, g') from h)
  obtain ⟨⟨t, g1, hT, hlen⟩, _⟩ := buildCandidate_spec hv hB
  obtain ⟨hlo, hhi⟩ := get_target_length_spec hT
  refine ⟨⟨?_, ?_⟩, ?_, ⟨g0, t, g1, hB, hT, hlen⟩⟩
  · rw [hlen]
    exact le_trans (le_max_left _ _) hlo
  · rw [hlen]
    exact hhi
  · intro g0' t' g1' hT'
    exact get_target_length_spec hT'

/-- C1 witness: the concrete generation on `witPolicy` returns a
password of length 4, within the bounds 4..6. -/
theorem C1_witness :
    witPolicy.length_min ≤ ((['A', 'a', '0', '%'] : PyStr).length : Int) ∧
      ((['A', 'a', '0', '%'] : PyStr).length : Int) ≤ witPolicy.length_max :=
  (C1_generated_length wit_validate wit_gen).1

/-- C2: every enabled `require*` category of a validated policy is
represented in a password returned by `generate`: an uppercase letter,
a lowercase letter, a digit, and a character of some `allowed_specials`
entry respectively; and the shuffle step always returns a permutation
(hence the same multiset) of its input. -/
theorem C2_category_coverage {p : PasswordPolicy} (hv : validate_rules p = .ok ())
    {ma : Int} {g : RNG} {pw : PyStr} {g' : RNG}
    (h : generate p ma g = .ok (pw, g')) :
    ((p.require_upper = true → ∃ c ∈ pw, isUpperC c) ∧
      (p.require_lower = true → ∃ c ∈ pw, isLowerC c) ∧
      (p.require_digits = true → ∃ c ∈ pw, isDigitC c) ∧
      (p.require_specials = true →
        ∃ c ∈ pw, ∃ sp s, p.allowed_specials = some sp ∧ s ∈ sp ∧ c ∈ s)) ∧
      (∀ (l : List PyStr) (g0 : RNG), List.Perm (shuffleList l g0).1 l) := by
  obtain ⟨g0, hB, _, _⟩ := generateAux_ok_src
    (show (generateAux p ma 0 g).1 = Except.ok (pw, g') from h)
  obtain ⟨_, _, hU, hL, hD, hS⟩ := buildCandidate_spec hv hB
  exact ⟨⟨hU, hL, hD, hS⟩, shuffleList_perm⟩

/-- C2 witness: the concrete password `Aa0%` contains an uppercase
letter, a lowercase letter and a digit. -/
theorem C2_witness :
    (∃ c ∈ (['A', 'a', '0', '%'] : PyStr), isUpperC c) ∧
      (∃ c ∈ (['A', 'a', '0', '%'] : PyStr), isLowerC c) ∧
      (∃ c ∈ (['A', 'a', '0', '%'] : PyStr), isDigitC c) :=
  ⟨(C2_category_coverage wit_validate wit_gen).1.1 rfl,
    (C2_category_coverage wit_validate wit_gen).1.2.1 rfl,
    (C2_category_coverage wit_validate wit_gen).1.2.2.1 rfl⟩

/-- C3: `check_max_consecutive(p, k)` for `k >= 1` is `True` exactly
when no run of identical adjacent characters in `p` exceeds `k`
(a run of `n` identical adjacent characters is a segment equal to
`List.replicate n c`); it is `True` for every `p` when `k` is `None`;
and every password returned by `generate` under a validated policy with
`max_consecutive_same = some k` has no run exceeding `k`. -/
theorem C3_max_consecutive :
    (∀ (pw : PyStr) (k : Int), 1 ≤ k →
      (check_max_consecutive pw (some k) = true ↔
        ∀ (c : Char) (n : Nat), Seg (List.replicate n c) pw → (n : Int) ≤ k)) ∧
      (∀ pw : PyStr, check_max_consecutive pw none = true) ∧
      (∀ (p : PasswordPolicy) (k : Int) (ma : Int) (g : RNG) (pw : PyStr) (g' : RNG),
        validate_rules p = .ok () → p.max_consecutive_same = some k →
        generate p ma g = .ok (pw, g') →
        ∀ (c : Char) (n : Nat), Seg (List.replicate n c) pw → (n : Int) ≤ k) := by
  refine ⟨check_max_consecutive_iff, check_max_consecutive_none, ?_⟩
  intro p k ma g pw g' hv hk h
  obtain ⟨g0, _, hC, _⟩ := generateAux_ok_src
    (show (generateAux p ma 0 g).1 = Except.ok (pw, g') from h)
  rw [hk] at hC
  have hk1 : 1 ≤ k := (validate_ok_facts hv).2.2.2.2.2.1 k hk
  exact (check_max_consecutive_iff pw k hk1).mp hC

/-- C3 witness: the scanner characterization at the concrete password
`aab` with bound 2. -/
theorem C3_witness :
    (1 : Int) ≤ 2 ∧
      (check_max_consecutive ['a', 'a', 'b'] (some 2) = true ↔
        ∀ (c : Char) (n : Nat), Seg (List.replicate n c) ['a', 'a', 'b'] →
          (n : Int) ≤ 2) :=
  ⟨by norm_num, C3_max_consecutive.1 ['a', 'a', 'b'] 2 (by norm_num)⟩

/-- C4: `_check_deny_substrings` is `True` for every candidate when the
deny list is `None`, and with a deny list it is `True` exactly when no
listed string occurs as a contiguous segment of the candidate; every
password returned by `generate` on a policy with a deny list contains
none of the listed strings. -/
theorem C4_deny_substrings :
    (∀ (p : PasswordPolicy) (pw : PyStr), p.deny_substrings = none →
      check_deny_substrings p pw = true) ∧
      (∀ (p : PasswordPolicy) (pw : PyStr) (d : List PyStr),
        p.deny_substrings = some d →
        (check_deny_substrings p pw = true ↔ ∀ s ∈ d, ¬ Seg s pw)) ∧
      (∀ (p : PasswordPolicy) (d : List PyStr) (ma : Int) (g : RNG) (pw : PyStr)
        (g' : RNG), p.deny_substrings = some d →
        generate p ma g = .ok (pw, g') → ∀ s ∈ d, ¬ Seg s pw) := by
  refine ⟨fun p pw h => (check_deny_iff p pw).1 h,
    fun p pw d hd => (check_deny_iff p pw).2 d hd, ?_⟩
  intro p d ma g pw g' hd h
  obtain ⟨g0, _, _, hC⟩ := generateAux_ok_src
    (show (generateAux p ma 0 g).1 = Except.ok (pw, g') from h)
  exact ((check_deny_iff p pw).2 d hd).mp hC

/-- C4 witness: the deny substring `p%` does not occur in the concrete
generated password `Aa0%`. -/
theorem C4_witness : ¬ Seg ['p', '%'] (['A', 'a', '0', '%'] : PyStr) :=
  C4_deny_substrings.2.2 witPolicy [['p', '%'], ['a', '!']] 1000 witRNG _ _
    rfl wit_gen ['p', '%'] (by simp)

/-- C5: on a validated policy with `maxAttempts >= 1`, `generate`
terminates with either a password or the exhaustion `PolicyError`, and
in the exhaustion case exactly `maxAttempts` candidates were built and
rejected. -/
theorem C5_termination {p : PasswordPolicy} (hv : validate_rules p = .ok ())
    {ma : Int} (hma : 1 ≤ ma) (g : RNG) :
    (∃ pw g', generate p ma g = .ok (pw, g')) ∨
      (generate p ma g = .error (exhaustMsg ma) ∧
        (generateAttempts p ma g : Int) = ma) := by
  rcases generateAux_cases hv 0 g with ⟨pw, g', hok⟩ | herr
  · exact Or.inl ⟨pw, g', hok⟩
  · right
    refine ⟨herr, ?_⟩
    have hc := generateAux_exhaust_count hv 0 g herr
    rw [generateAttempts]
    omega

/-- C5 witness: the dichotomy at the concrete witness policy with the
default budget of 1000. -/
theorem C5_witness :
    (∃ pw g', generate witPolicy 1000 witRNG = .ok (pw, g')) ∨
      (generate witPolicy 1000 witRNG = .error (exhaustMsg 1000) ∧
        (generateAttempts witPolicy 1000 witRNG : Int) = 1000) :=
  C5_termination wit_validate (by norm_num) witRNG

/-- C7: serializing a valid policy with `to_dict` and rebuilding it with
`from_dict` succeeds and reproduces the same dictionary. -/
theorem C7_roundtrip {p : PasswordPolicy} (hv : validate_rules p = .ok ()) :
    ∃ q, from_dict (to_dict p) = .ok q ∧ to_dict q = to_dict p := by
  refine ⟨p, ?_, rfl⟩
  show (match validate_rules p with
        | .error e => Except.error e
        | .ok _ => Except.ok p) = Except.ok p
  rw [hv]

/-- C7 witness: the round trip on the concrete witness policy. -/
theorem C7_witness :
    validate_rules witPolicy = .ok () ∧
      ∃ q, from_dict (to_dict witPolicy) = .ok q ∧ to_dict q = to_dict witPolicy :=
  ⟨wit_validate, C7_roundtrip wit_validate⟩

/-- C8: under a validated policy with `no_whitespace` on, no character
of a password returned by `generate` is a whitespace character. -/
theorem C8_no_whitespace {p : PasswordPolicy} (hv : validate_rules p = .ok ())
    (hw : p.no_whitespace = true) {ma : Int} {g : RNG} {pw : PyStr} {g' : RNG}
    (h : generate p ma g = .ok (pw, g')) :
    ∀ c ∈ pw, isSpaceChar c = false := by
  obtain ⟨g0, hB, _, _⟩ := generateAux_ok_src
    (show (generateAux p ma 0 g).1 = Except.ok (pw, g') from h)
  obtain ⟨_, hchars, _⟩ := buildCandidate_spec hv hB
  intro c hc
  obtain ⟨s, hsGen, hcs⟩ := hchars c hc
  rcases hsGen with ⟨c', rfl, hclass⟩ | ⟨hs, sp, hsp, hmem⟩
  · simp only [List.mem_singleton] at hcs
    subst hcs
    by_contra hspace
    rw [Bool.not_eq_false] at hspace
    have := isSpaceChar_toNat hspace
    rcases hclass with ⟨h1, _⟩ | ⟨h1, _⟩ | ⟨h1, _⟩ <;> omega
  · have hws := (validate_ok_facts hv).2.2.2.2.2.2.1 hw sp hsp s hmem
    obtain ⟨sp', hsp', _, hlen⟩ := (validate_ok_facts hv).2.2.2.2.1 hs
    rw [hsp] at hsp'
    simp only [Option.some.injEq] at hsp'
    subst hsp'
    have hslen := hlen s hmem
    obtain ⟨c0, rfl⟩ : ∃ c0, s = [c0] := by
      cases s with
      | nil => simp at hslen
      | cons a t =>
        cases t with
        | nil => exact ⟨a, rfl⟩
        | cons b u => simp at hslen
    simp only [List.mem_singleton] at hcs
    subst hcs
    simpa [pyIsSpace] using hws

/-- C8 witness: the characters of the concrete generated password are
not whitespace. -/
theorem C8_witness : isSpaceChar 'A' = false ∧ isSpaceChar '%' = false :=
  ⟨C8_no_whitespace wit_validate rfl wit_gen 'A' (by simp),
    C8_no_whitespace wit_validate rfl wit_gen '%' (by simp)⟩

/-- C9: `generate` never mutates the policy held by the generator
object: the generator state after the call equals the state before it,
field by field.  The method body contains no attribute assignment, so
its state-transformer embedding returns the object unchanged. -/
theorem C9_policy_unchanged (gen : PasswordGenerator) (ma : Int) (g : RNG) :
    (gen.generateM ma g).2 = gen ∧
      (gen.generateM ma g).2.policy.length_min = gen.policy.length_min ∧
      (gen.generateM ma g).2.policy.length_max = gen.policy.length_max ∧
      (gen.generateM ma g).2.policy.require_upper = gen.policy.require_upper ∧
      (gen.generateM ma g).2.policy.require_lower = gen.policy.require_lower ∧
      (gen.generateM ma g).2.policy.require_digits = gen.policy.require_digits ∧
      (gen.generateM ma g).2.policy.require_specials = gen.policy.require_specials ∧
      (gen.generateM ma g).2.policy.allowed_specials = gen.policy.allowed_specials ∧
      (gen.generateM ma g).2.policy.deny_substrings = gen.policy.deny_substrings ∧
      (gen.generateM ma g).2.policy.max_consecutive_same
        = gen.policy.max_consecutive_same ∧
      (gen.generateM ma g).2.policy.no_whitespace = gen.policy.no_whitespace :=
  ⟨rfl, rfl, rfl, rfl, rfl, rfl, rfl, rfl, rfl, rfl, rfl⟩

/-- C10: the attempt budget is examined only after a candidate fails the
post-checks: for any `maxAttempts`, including 0 or negative, if the
first candidate passes both checks `generate` returns it; and under a
validated policy an exhaustion error implies the first candidate was
built and rejected. -/
theorem C10_budget_checked_after {p : PasswordPolicy} (ma : Int) (g : RNG) :
    (∀ (pw : PyStr) (g1 : RNG), buildCandidate p g = .ok (pw, g1) →
      (check_max_consecutive pw p.max_consecutive_same &&
        check_deny_substrings p pw) = true →
      generate p ma g = .ok (pw, g1)) ∧
      (validate_rules p = .ok () → generate p ma g = .error (exhaustMsg ma) →
        ∃ pw g1, buildCandidate p g = .ok (pw, g1) ∧
          (check_max_consecutive pw p.max_consecutive_same &&
            check_deny_substrings p pw) = false) := by
  constructor
  · intro pw g1 hB hC
    rw [generate, generateAux, hB]
    dsimp only
    rw [if_pos hC]
  · intro hv herr
    cases hB : buildCandidate p g with
    | error e =>
      obtain ⟨pw, g1, hB'⟩ := buildCandidate_ok hv g
      rw [hB] at hB'
      exact absurd hB' (by simp)
    | ok r =>
      by_cases hC : (check_max_consecutive r.1 p.max_consecutive_same &&
          check_deny_substrings p r.1) = true
      · exfalso
        have hok : generate p ma g = .ok (r.1, r.2) := by
          rw [generate, generateAux, hB]
          dsimp only
          rw [if_pos hC]
        rw [hok] at herr
        exact absurd herr (by simp)
      · exact ⟨r.1, r.2, by simp [hB], by simpa using hC⟩

/-- C10 witness: with a budget of 5 the first passing candidate is
returned unchanged. -/
theorem C10_witness :
    generate witPolicy 5 witRNG = .ok (['A', 'a', '0', '%'], ⟨fun _ => 0, 9⟩) :=
  (C10_budget_checked_after 5 witRNG).1 _ _ wit_build (by rfl)

/-- C6 counterexample: the specification `c6Policy` exhibits a
multi-character entry in `allowed_specials`, yet `validate_rules`
raises no error, because the single-character check runs only when
`require_specials` is true. -/
theorem C6_counterexample :
    (∃ s ∈ c6Policy.allowed_specials.getD [], s.length ≠ 1) ∧
      validate_rules c6Policy = .ok () :=
  ⟨⟨['a', 'b'], by simp [c6Policy], by norm_num⟩, by rfl⟩

set_option maxHeartbeats 4000000 in
/-- C6 amended: `validate_rules` raises a `PolicyError` exactly when
the specification has `lengthMin <= 0` or `lengthMax <= 0`, or
`lengthMin > lengthMax`, or `requireSpecials` with absent, empty, or
multi-character-containing `allowedSpecials`, or an empty string in
`denySubstrings`, or a length bound above 1024, or (with `noWhitespace`)
a whitespace entry in `allowedSpecials`, or `maxConsecutiveSame < 1`,
or a required-category count exceeding `lengthMax`. -/
theorem C6_validation_amended (p : PasswordPolicy) :
    (∃ e, validate_rules p = .error e) ↔
      p.length_min ≤ 0 ∨ p.length_max ≤ 0 ∨ p.length_min > p.length_max ∨
        (p.require_specials = true ∧ (p.allowed_specials = none ∨
          p.allowed_specials.getD [] = [] ∨
          ∃ s ∈ p.allowed_specials.getD [], s.length ≠ 1)) ∨
        (∃ s ∈ p.deny_substrings.getD [], s = []) ∨
        p.length_min > 1024 ∨ p.length_max > 1024 ∨
        (p.no_whitespace = true ∧
          ∃ s ∈ p.allowed_specials.getD [], pyIsSpace s = true) ∨
        p.max_consecutive_same.getD 1 < 1 ∨
        requiredCount p > p.length_max := by
  unfold validate_rules
  split_ifs with h1 h2 h3 h4 h5 h6 h7 h8 h9 h10
  · refine iff_of_true ⟨_, rfl⟩ ?_
    rcases h1 with h | h
    · exact Or.inl h
    · exact Or.inr (Or.inl h)
  · exact iff_of_true ⟨_, rfl⟩ (Or.inr (Or.inr (Or.inl h2)))
  · exact iff_of_true ⟨_, rfl⟩
      (Or.inr (Or.inr (Or.inr (Or.inl ⟨h3.1, Or.inl h3.2⟩))))
  · exact iff_of_true ⟨_, rfl⟩
      (Or.inr (Or.inr (Or.inr (Or.inl ⟨h4.1, Or.inr (Or.inl h4.2)⟩))))
  · exact iff_of_true ⟨_, rfl⟩
      (Or.inr (Or.inr (Or.inr (Or.inl ⟨h5.1, Or.inr (Or.inr h5.2)⟩))))
  · exact iff_of_true ⟨_, rfl⟩ (Or.inr (Or.inr (Or.inr (Or.inr (Or.inl h6)))))
  · refine iff_of_true ⟨_, rfl⟩ ?_
    rcases h7 with h | h
    · exact Or.inr (Or.inr (Or.inr (Or.inr (Or.inr (Or.inl h)))))
    · exact Or.inr (Or.inr (Or.inr (Or.inr (Or.inr (Or.inr (Or.inl h))))))
  · exact iff_of_true ⟨_, rfl⟩
      (Or.inr (Or.inr (Or.inr (Or.inr (Or.inr (Or.inr (Or.inr (Or.inl h8))))))))
  · exact iff_of_true ⟨_, rfl⟩
      (Or.inr (Or.inr (Or.inr (Or.inr (Or.inr (Or.inr (Or.inr (Or.inr
        (Or.inl h9)))))))))
  · exact iff_of_true ⟨_, rfl⟩
      (Or.inr (Or.inr (Or.inr (Or.inr (Or.inr (Or.inr (Or.inr (Or.inr
        (Or.inr h10)))))))))
  · refine iff_of_false (by simp) ?_
    rintro (h | h | h | ⟨hrs, h | h | h⟩ | h | h | h | h | h | h)
    · exact h1 (Or.inl h)
    · exact h1 (Or.inr h)
    · exact h2 h
    · exact h3 ⟨hrs, h⟩
    · exact h4 ⟨hrs, h⟩
    · exact h5 ⟨hrs, h⟩
    · exact h6 h
    · exact h7 (Or.inl h)
    · exact h7 (Or.inr h)
    · exact h8 h
    · exact h9 h
    · exact h10 h

end PwdCreator
